import Mathlib

/-!
Verification of the game-state engine of the CSSE2010 Space Invaders /
Asteroids project (src/submission/game.c and src/submission/project.c).

The playfield is an 8 by 16 grid.  A position (x,y) is packed into a single
byte by the macro GAME_POSITION(x,y) = ((x) << 4)|((y) & 0x0F), stored as a
uint8_t; asteroids and projectiles are arrays of packed positions together
with their counts.  We model the arrays-with-count as Lean lists of packed
positions (indexed 0 .. count-1 exactly as the C arrays) and the calls to
random() as an explicit list of pending draws that each retry loop consumes;
an exhausted draw list makes the operation return none, which corresponds to
the C loop still spinning.
-/

namespace SpaceGame

/-- Modelled from the spec: game.h is not part of the repository; the spec
fixes the field as the 8 by 16 playable grid. -/
def FIELD_WIDTH : Nat := 8

/-- Modelled from the spec: the field is 16 rows high (y in [0,15]). -/
def FIELD_HEIGHT : Nat := 16

/-- Modelled from the spec: capacity bound of the asteroid bag, from the
missing game.h.  The exact numeric value is not pinned down by the spec;
every theorem below holds for the concrete choice made here. -/
def MAX_ASTEROIDS : Nat := 20

/-- Modelled from the spec: capacity bound of the projectile bag, from the
missing game.h. -/
def MAX_PROJECTILES : Nat := 4

/-- Conversion of a C int value to uint8_t (reduction modulo 256). -/
def u8 (i : Int) : Nat := (i % 256).toNat

/-- GAME_POSITION(x,y) = ((x) << 4)|((y) & 0x0F) where both arguments have
been converted to uint8_t at the call and the result is stored in a uint8_t:
the stored byte is (x mod 16)*16 + (y mod 16). -/
def GAME_POSITION (x y : Int) : Nat := (u8 x % 16) * 16 + u8 y % 16

/-- The game-engine state of game.c: basePosition, the projectiles array with
numProjectiles, the asteroids array with numAsteroids, and lives.  The score
lives in score.c, which is not part of the repository; Modelled from the
spec: the score is an external accumulator incremented by fixed amounts on
each successful hit, so we carry it as a Nat field. -/
structure GameState where
  basePosition : Int
  projectiles : List Nat
  asteroids : List Nat
  lives : Int
  score : Nat
deriving Repr, DecidableEq

/-- The linear search shared by asteroid_at and projectile_at: index of the
first array entry equal to positionToCheck, or none (C returns -1). -/
def find_at (pos : Nat) : List Nat → Option Nat
  | [] => none
  | q :: rest => if q = pos then some 0 else (find_at pos rest).map (· + 1)

/-- asteroid_at(x,y): index of the asteroid at the given position, if any. -/
def asteroid_at (asts : List Nat) (x y : Int) : Option Nat :=
  find_at (GAME_POSITION x y) asts

/-- projectile_at(x,y): index of the projectile at the given position. -/
def projectile_at (projs : List Nat) (x y : Int) : Option Nat :=
  find_at (GAME_POSITION x y) projs

/-- remove_asteroid: an invalid index (C index -1, modelled as none, or one
out of range) removes nothing; otherwise the last array entry is moved into
the removed slot and the count drops by one.  (When the index is the last
slot the C code skips the copy; writing the last element onto itself and
dropping it is the same list.) -/
def remove_asteroid (asts : List Nat) (i : Option Nat) : List Nat :=
  match i with
  | none => asts
  | some idx =>
    if idx < asts.length then (asts.set idx (asts.getLastD 0)).dropLast else asts

/-- remove_projectile: an invalid index removes nothing; otherwise the later
entries are shifted down over the removed slot and the count drops by one. -/
def remove_projectile (projs : List Nat) (i : Option Nat) : List Nat :=
  match i with
  | none => projs
  | some idx => if idx < projs.length then projs.eraseIdx idx else projs

/-- The do/while retry loop used (identically) by regen_asteroid, by the
row-0 respawn inside advance_asteroids, and nowhere else: draw
new_x = random() % FIELD_WIDTH until no asteroid sits at (new_x, 15).
Returns the chosen x and the unconsumed draws, or none when the supplied
draw list is exhausted with the loop still spinning. -/
def find_free_x15 (asts : List Nat) : List Nat → Option (Nat × List Nat)
  | [] => none
  | d :: rest =>
    let x := d % FIELD_WIDTH
    if asteroid_at asts (x : Int) 15 = none then some (x, rest)
    else find_free_x15 asts rest

/-- regen_asteroid acting on the asteroid array alone: find a free column in
row 15 and append the new asteroid there (numAsteroids++ then write at the
new last slot). -/
def regen_list (asts : List Nat) (draws : List Nat) :
    Option (List Nat × List Nat) :=
  match find_free_x15 asts draws with
  | none => none
  | some (x, rest) => some (asts ++ [GAME_POSITION (x : Int) 15], rest)

/-- regen_asteroid: the only game-state field it mutates is the asteroid
array (update_terminal and the redraw only touch the display). -/
def regen_asteroid (s : GameState) (draws : List Nat) :
    Option (GameState × List Nat) :=
  match regen_list s.asteroids draws with
  | none => none
  | some (asts, rest) => some ({ s with asteroids := asts }, rest)

/-- The direction argument of move_base.  Modelled from the spec: MOVE_LEFT
and MOVE_RIGHT are defined in the missing game.h; the spec only uses the
two-valued direction. -/
inductive Direction
  | left
  | right
deriving DecidableEq, Repr

/-- One diagonal ram check of move_base: if an asteroid sits at (x,y), a life
is lost and the asteroid is removed (and the base-hit alarm triggered; audio
is not game state). -/
def ram_check (s : GameState) (x y : Int) : GameState :=
  match asteroid_at s.asteroids x y with
  | none => s
  | some i =>
    { s with lives := s.lives - 1, asteroids := remove_asteroid s.asteroids (some i) }

/-- move_base: moving left is allowed when basePosition is not 0 and checks
the cells (basePosition-2,0) then (basePosition-1,1); moving right is
allowed when basePosition is not 7 and checks (basePosition+2,0) then
(basePosition+1,1); each occupied check costs a life and destroys the
asteroid (no regeneration), then the base moves and 1 is returned.  A
refused move returns 0 with the state untouched. -/
def move_base (d : Direction) (s : GameState) : GameState × Int :=
  match d with
  | .left =>
    if s.basePosition ≠ 0 then
      let s1 := ram_check s (s.basePosition - 2) 0
      let s2 := ram_check s1 (s.basePosition - 1) 1
      ({ s2 with basePosition := s.basePosition - 1 }, 1)
    else (s, 0)
  | .right =>
    if s.basePosition ≠ 7 then
      let s1 := ram_check s (s.basePosition + 2) 0
      let s2 := ram_check s1 (s.basePosition + 1) 1
      ({ s2 with basePosition := s.basePosition + 1 }, 1)
    else (s, 0)

/-- fire_projectile: requires capacity and a free firing cell
(basePosition, 2).  If an asteroid occupies the firing cell it is destroyed,
a replacement is regenerated and the score credited with 1, and no
projectile is created; otherwise a projectile is appended at the firing
cell.  Both count as a successful fire (return 1); a refused fire returns 0
and changes nothing. -/
def fire_projectile (s : GameState) (draws : List Nat) :
    Option (GameState × List Nat × Int) :=
  if s.projectiles.length < MAX_PROJECTILES ∧
      projectile_at s.projectiles s.basePosition 2 = none then
    match asteroid_at s.asteroids s.basePosition 2 with
    | some i =>
      match regen_asteroid
          { s with asteroids := remove_asteroid s.asteroids (some i) } draws with
      | none => none
      | some (s2, rest) => some ({ s2 with score := s2.score + 1 }, rest, 1)
    | none =>
      some ({ s with
        projectiles := s.projectiles ++ [GAME_POSITION s.basePosition 2] },
        draws, 1)
  else
    some (s, draws, 0)

/-- Processing of one cell (x,y) of the row-major scan in advance_asteroids.
If an asteroid sits there it is removed from its slot; then, in order:
a projectile on the same cell, or on the cell one row below (the C code
passes y-1 through a uint8_t, so for y = 0 the check wraps to row 15),
destroys it with a score credit and a regeneration; otherwise a coincidence
with the base footprint costs a life and regenerates; otherwise the asteroid
moves down one row, or respawns in a free column of row 15 when it was at
row 0. -/
def advance_cell (x y : Nat) (s : GameState) (draws : List Nat) :
    Option (GameState × List Nat) :=
  match asteroid_at s.asteroids (x : Int) (y : Int) with
  | none => some (s, draws)
  | some i =>
    let s1 := { s with asteroids := remove_asteroid s.asteroids (some i) }
    match projectile_at s1.projectiles (x : Int) (y : Int) with
    | some j =>
      regen_asteroid
        { s1 with projectiles := remove_projectile s1.projectiles (some j),
                  score := s1.score + 1 } draws
    | none =>
      match projectile_at s1.projectiles (x : Int) ((y : Int) - 1) with
      | some j =>
        regen_asteroid
          { s1 with projectiles := remove_projectile s1.projectiles (some j),
                    score := s1.score + 1 } draws
      | none =>
        if (s1.basePosition = (x : Int) ∧ y = 2) ∨
            (s1.basePosition = (x : Int) + 1 ∧ y = 1) ∨
            (s1.basePosition = (x : Int) - 1 ∧ y = 1) then
          regen_asteroid { s1 with lives := s1.lives - 1 } draws
        else
          if y ≠ 0 then
            some ({ s1 with
              asteroids := s1.asteroids ++ [GAME_POSITION (x : Int) ((y : Int) - 1)] },
              draws)
          else
            match find_free_x15 s1.asteroids draws with
            | none => none
            | some (nx, rest) =>
              some ({ s1 with
                asteroids := s1.asteroids ++ [GAME_POSITION (nx : Int) 15] },
                rest)

/-- Sequencing of the cell scan over a list of cells. -/
def advance_cells : List (Nat × Nat) → GameState → List Nat →
    Option (GameState × List Nat)
  | [], s, draws => some (s, draws)
  | (x, y) :: cs, s, draws =>
    match advance_cell x y s draws with
    | none => none
    | some (s2, d2) => advance_cells cs s2 d2

/-- The ascending integer range of a C for loop: ascRange k n is
k, k+1, ..., k+n-1. -/
def ascRange : Nat → Nat → List Nat
  | _, 0 => []
  | k, n + 1 => k :: ascRange (k + 1) n

/-- The row-major scan order of advance_asteroids: x from 0 to 7 outer,
y from 0 to 15 inner. -/
def cellList : List (Nat × Nat) :=
  (ascRange 0 8).flatMap fun x => (ascRange 0 16).map fun y => (x, y)

/-- advance_asteroids: the full scan over all 128 cells. -/
def advance_asteroids (s : GameState) (draws : List Nat) :
    Option (GameState × List Nat) :=
  advance_cells cellList s draws

/-- The while loop of advance_projectiles.  The C loop keeps an index i into
the projectiles array; here the array is split as done ++ todo with
i = done.length: removing the projectile at index i (off the top, or into an
asteroid) drops the head of todo without advancing i, and a plain move
transfers the updated head onto done (i becomes i+1).  The loop reads the
asteroid array and the score but never the basePosition or lives. -/
def advance_projectiles_loop (asts : List Nat) (score : Nat)
    (done : List Nat) : List Nat → List Nat →
    Option (List Nat × List Nat × Nat × List Nat)
  | [], draws => some (asts, done, score, draws)
  | p :: rest, draws =>
    if p % 16 + 1 = FIELD_HEIGHT then
      advance_projectiles_loop asts score done rest draws
    else
      match asteroid_at asts ((p / 16 : Nat) : Int) ((p % 16 + 1 : Nat) : Int) with
      | some i =>
        match regen_list (remove_asteroid asts (some i)) draws with
        | none => none
        | some (asts2, d2) =>
          advance_projectiles_loop asts2 (score + 1) done rest d2
      | none =>
        advance_projectiles_loop asts score
          (done ++ [GAME_POSITION ((p / 16 : Nat) : Int) ((p % 16 + 1 : Nat) : Int)])
          rest draws

/-- advance_projectiles: run the loop from index 0 over the whole array. -/
def advance_projectiles (s : GameState) (draws : List Nat) :
    Option (GameState × List Nat) :=
  match advance_projectiles_loop s.asteroids s.score [] s.projectiles draws with
  | none => none
  | some (asts, projs, score, rest) =>
    some ({ s with asteroids := asts, projectiles := projs, score := score }, rest)

/-- The do/while of initialise_game: draw x = random() % FIELD_WIDTH and
y = 3 + random() % (FIELD_HEIGHT - 3) (two draws per attempt) until the cell
holds no asteroid yet. -/
def find_free_init (asts : List Nat) : List Nat → Option (Nat × Nat × List Nat)
  | dx :: dy :: rest =>
    let x := dx % FIELD_WIDTH
    let y := 3 + dy % (FIELD_HEIGHT - 3)
    if asteroid_at asts (x : Int) (y : Int) = none then some (x, y, rest)
    else find_free_init asts rest
  | _ => none

/-- The placement loop of initialise_game: MAX_ASTEROIDS asteroids, each at
a fresh random non-colliding cell with y at least 3. -/
def init_asteroids : Nat → List Nat → List Nat → Option (List Nat × List Nat)
  | 0, asts, draws => some (asts, draws)
  | n + 1, asts, draws =>
    match find_free_init asts draws with
    | none => none
    | some (x, y, rest) =>
      init_asteroids n (asts ++ [GAME_POSITION (x : Int) (y : Int)]) rest

/-- initialise_game: base at the centre (3), no projectiles, lives 4, the
asteroid bag filled by the placement loop.  The score is external state that
initialise_game itself does not touch. -/
def initialise_game (s : GameState) (draws : List Nat) : Option GameState :=
  match init_asteroids MAX_ASTEROIDS [] draws with
  | none => none
  | some (asts, _) =>
    some { basePosition := 3, projectiles := [], asteroids := asts,
           lives := 4, score := s.score }

/-- new_game in project.c: initialise_game() followed by init_score().
init_score is in score.c, which is not in the repository; Modelled from the
spec: score.reset() sets the accumulator to 0 at new-game. -/
def new_game (s : GameState) (draws : List Nat) : Option GameState :=
  match initialise_game s draws with
  | none => none
  | some s2 => some { s2 with score := 0 }

/-- is_game_over: 1 when lives < 1, else 0. -/
def is_game_over (s : GameState) : Int :=
  if s.lives < 1 then 1 else 0

/-- The game states reachable through the engine operations as the game loop
in project.c invokes them: a fresh new_game, then move_base /
fire_projectile / advance_asteroids / advance_projectiles while the game is
not over, and the internal regen_asteroid. -/
inductive Reachable : GameState → Prop
  | init : ∀ s0 draws s, new_game s0 draws = some s → Reachable s
  | move : ∀ s d, Reachable s → is_game_over s = 0 →
      Reachable (move_base d s).1
  | fire : ∀ s draws s2 d2 r, Reachable s → is_game_over s = 0 →
      fire_projectile s draws = some (s2, d2, r) → Reachable s2
  | advA : ∀ s draws s2 d2, Reachable s → is_game_over s = 0 →
      advance_asteroids s draws = some (s2, d2) → Reachable s2
  | advP : ∀ s draws s2 d2, Reachable s → is_game_over s = 0 →
      advance_projectiles s draws = some (s2, d2) → Reachable s2
  | regen : ∀ s draws s2 d2, Reachable s →
      regen_asteroid s draws = some (s2, d2) → Reachable s2

/-- The asteroid-advance threshold of play_game (project.c): asteroids are
advanced once current_time reaches last_asteroid_time + 500 - score*1.8, so
the interval between advances is 500 - 1.8*score.  The C code computes it in
double precision with no clamping anywhere; it is modelled exactly over the
rationals. -/
def asteroid_interval (score : ℚ) : ℚ := 500 - 18 / 10 * score

/-- The state of the base-hit alarm sequencer in project.c: the enable flag
base_hit_sound, the step counter basehit_sequence, and the timestamp
basehit_time of the step last fired. -/
structure AlarmState where
  base_hit_sound : Int
  basehit_sequence : Int
  basehit_time : Nat
deriving Repr, DecidableEq

/-- enable_basehit_sound: arms the alarm and resets the step counter to 1;
it does not touch basehit_time. -/
def enable_basehit_sound (a : AlarmState) : AlarmState :=
  { a with base_hit_sound := 1, basehit_sequence := 1 }

/-- handle_basehit_sound with the floating-point inter-step delay
300 - 200*sin(basehit_sequence/0.8) abstracted into the parameter delay
(the claims below do not depend on its values): once
current_time - delay reaches basehit_time the step tone plays, the step
counter advances and basehit_time is set to now; after step 3 the alarm
disarms. -/
def handle_basehit_sound (delay : Int → Int) (now : Nat) (a : AlarmState) :
    AlarmState :=
  let a2 :=
    if (now : Int) - delay a.basehit_sequence ≥ (a.basehit_time : Int) then
      { a with basehit_sequence := a.basehit_sequence + 1, basehit_time := now }
    else a
  if a2.basehit_sequence = 4 then { a2 with base_hit_sound := 0 } else a2

/-- A sequence of move_base calls, as issued by the game loop (each call
keeps the resulting state, the returned flag is not fed back). -/
def move_seq (ds : List Direction) (s : GameState) : GameState :=
  ds.foldl (fun t d => (move_base d t).1) s

/-- A throwaway pre-initialisation state (new_game overwrites every field). -/
def gsFallback : GameState := ⟨0, [], [], 0, 0⟩

/-- Draws for a concrete run of new_game: two waves of three asteroids
aligned with the base footprint (columns 2,3,4 at heights 4..6) and
fourteen spares parked high in columns 6 and 7. -/
def traceDraws : List Nat :=
  [3, 2, 2, 1, 4, 1, 3, 3, 2, 2, 4, 2,
   6, 12, 6, 11, 6, 10, 6, 9, 6, 8, 6, 7, 6, 6,
   7, 12, 7, 11, 7, 10, 7, 9, 7, 8, 7, 7, 7, 6]

/-- The state new_game produces from traceDraws. -/
def trace0 : GameState :=
  ⟨3, [], [53, 36, 68, 54, 37, 69, 111, 110, 109, 108, 107, 106, 105, 127,
    126, 125, 124, 123, 122, 121], 4, 0⟩

/-- trace0 after one advance_asteroids pass (no draws consumed). -/
def trace1 : GameState :=
  ⟨3, [], [36, 110, 53, 52, 35, 67, 109, 108, 107, 106, 105, 104, 68, 125,
    124, 123, 122, 121, 120, 126], 4, 0⟩

/-- trace1 after one advance_asteroids pass. -/
def trace2 : GameState :=
  ⟨3, [], [34, 108, 51, 35, 124, 52, 107, 106, 105, 104, 103, 67, 66, 123,
    122, 121, 120, 119, 109, 125], 4, 0⟩

/-- trace2 after one advance_asteroids pass: the first wave now sits on the
base diagonals at (2,1), (3,2), (4,1) (packed 33, 50, 65). -/
def trace3 : GameState :=
  ⟨3, [], [123, 106, 34, 33, 122, 50, 105, 104, 103, 102, 66, 65, 51, 121,
    120, 119, 118, 108, 107, 124], 4, 0⟩

/-- trace3 after one advance_asteroids pass with draws [0,1,2]: three base
hits in a single pass (lives 4 down to 1), three regenerated asteroids. -/
def trace4 : GameState :=
  ⟨3, [], [121, 104, 15, 122, 120, 33, 103, 102, 101, 65, 47, 50, 31, 119,
    118, 117, 107, 106, 105, 123], 1, 0⟩

/-- trace4 after one advance_asteroids pass with draws [3,4,5]: the second
wave lands three more base hits while lives is 1, leaving lives at -2. -/
def trace5 : GameState :=
  ⟨3, [], [119, 102, 121, 120, 118, 30, 101, 100, 94, 62, 78, 46, 14, 117,
    116, 106, 105, 104, 103, 122], -2, 0⟩

/-! ### Basic facts about the linear search and the removal operations -/

theorem find_at_eq_none {pos : Nat} {l : List Nat} :
    find_at pos l = none ↔ pos ∉ l := by
  induction l with
  | nil => simp [find_at]
  | cons q rest ih =>
    by_cases hq : q = pos
    · subst hq; simp [find_at]
    · simp [find_at, hq, ih, Option.map_eq_none, Ne.symm hq]

theorem find_at_some_decomp {pos : Nat} {l : List Nat} {i : Nat} :
    find_at pos l = some i →
    ∃ l₁ l₂, l = l₁ ++ pos :: l₂ ∧ l₁.length = i := by
  induction l generalizing i with
  | nil => simp [find_at]
  | cons q rest ih =>
    intro h
    rw [find_at] at h
    split at h
    · next hq =>
        subst hq
        exact ⟨[], rest, rfl, by simpa using h⟩
    · simp only [Option.map_eq_some'] at h
      obtain ⟨j, hj, hij⟩ := h
      obtain ⟨l₁, l₂, hl, hlen⟩ := ih hj
      exact ⟨q :: l₁, l₂, by simp [hl], by simp [hlen, hij]⟩

theorem find_at_isSome_of_mem {pos : Nat} {l : List Nat} (h : pos ∈ l) :
    ∃ i, find_at pos l = some i := by
  cases hf : find_at pos l with
  | none => exact absurd (find_at_eq_none.1 hf) (by simp [h])
  | some i => exact ⟨i, rfl⟩

theorem set_length_append {α : Type} (l₁ : List α) (a : α) (l₂ : List α) (b : α) :
    (l₁ ++ a :: l₂).set l₁.length b = l₁ ++ b :: l₂ := by
  induction l₁ with
  | nil => rfl
  | cons q rest ih => simp [List.set, ih]

theorem middle_sublist (l₁ l₂ : List Nat) (pos : Nat) :
    List.Sublist (l₁ ++ l₂) (l₁ ++ pos :: l₂) :=
  List.Sublist.append_left (List.sublist_cons_self pos l₂) l₁

theorem remove_asteroid_perm (l₁ l₂ : List Nat) (pos : Nat) :
    List.Perm (remove_asteroid (l₁ ++ pos :: l₂) (some l₁.length)) (l₁ ++ l₂) := by
  rcases List.eq_nil_or_concat l₂ with h2 | ⟨m, z, h2⟩
  · subst h2
    have hlen : l₁.length < (l₁ ++ [pos]).length := by simp
    have hlast : (l₁ ++ [pos]).getLastD 0 = pos := List.getLastD_concat 0 pos l₁
    simp only [remove_asteroid, if_pos hlen, hlast, set_length_append,
      List.dropLast_concat, List.append_nil]
    exact List.Perm.refl l₁
  · rw [List.concat_eq_append] at h2
    subst h2
    have hassoc : l₁ ++ pos :: (m ++ [z]) = (l₁ ++ pos :: m) ++ [z] := by simp
    have hlen : l₁.length < (l₁ ++ pos :: (m ++ [z])).length := by simp
    have hlast : (l₁ ++ pos :: (m ++ [z])).getLastD 0 = z := by
      rw [hassoc]; exact List.getLastD_concat 0 z (l₁ ++ pos :: m)
    have hset : (l₁ ++ pos :: (m ++ [z])).set l₁.length z
        = (l₁ ++ z :: m) ++ [z] := by
      rw [set_length_append]; simp
    simp only [remove_asteroid, if_pos hlen, hlast, hset, List.dropLast_concat]
    have h1 : List.Perm (z :: m) (m ++ [z]) := (List.perm_append_singleton z m).symm
    exact List.Perm.append_left l₁ h1

/-- Removal of the asteroid found at a cell: the removed list is a
permutation of the original with one occurrence of the position dropped. -/
theorem remove_found_perm {l : List Nat} {pos : Nat} {i : Nat}
    (h : find_at pos l = some i) :
    ∃ l₁ l₂, l = l₁ ++ pos :: l₂ ∧
      List.Perm (remove_asteroid l (some i)) (l₁ ++ l₂) := by
  obtain ⟨l₁, l₂, hl, hlen⟩ := find_at_some_decomp h
  exact ⟨l₁, l₂, hl, by rw [hl, ← hlen]; exact remove_asteroid_perm l₁ l₂ pos⟩

theorem remove_found_length {l : List Nat} {pos : Nat} {i : Nat}
    (h : find_at pos l = some i) :
    (remove_asteroid l (some i)).length + 1 = l.length := by
  obtain ⟨l₁, l₂, hl, hp⟩ := remove_found_perm h
  rw [hp.length_eq, hl]; simp; omega

theorem remove_found_nodup {l : List Nat} {pos : Nat} {i : Nat}
    (h : find_at pos l = some i) (hnd : l.Nodup) :
    (remove_asteroid l (some i)).Nodup := by
  obtain ⟨l₁, l₂, hl, hp⟩ := remove_found_perm h
  subst hl
  exact hp.nodup_iff.2 ((middle_sublist l₁ l₂ pos).nodup hnd)

theorem remove_found_not_mem {l : List Nat} {pos : Nat} {i : Nat}
    (h : find_at pos l = some i) (hnd : l.Nodup) :
    pos ∉ remove_asteroid l (some i) := by
  obtain ⟨l₁, l₂, hl, hp⟩ := remove_found_perm h
  subst hl
  rw [hp.mem_iff]
  exact (List.nodup_cons.1 (List.nodup_middle.1 hnd)).1

theorem remove_found_not_mem_of_not_mem {l : List Nat} {pos a : Nat} {i : Nat}
    (h : find_at pos l = some i) (ha : a ∉ l) :
    a ∉ remove_asteroid l (some i) := by
  obtain ⟨l₁, l₂, hl, hp⟩ := remove_found_perm h
  subst hl
  rw [hp.mem_iff]
  exact fun hm => ha ((middle_sublist l₁ l₂ pos).subset hm)

theorem remove_found_subset {l : List Nat} {pos a : Nat} {i : Nat}
    (h : find_at pos l = some i) (ha : a ∈ remove_asteroid l (some i)) :
    a ∈ l := by
  obtain ⟨l₁, l₂, hl, hp⟩ := remove_found_perm h
  subst hl
  exact (middle_sublist l₁ l₂ pos).subset (hp.mem_iff.1 ha)

theorem remove_projectile_sublist (projs : List Nat) (i : Option Nat) :
    List.Sublist (remove_projectile projs i) projs := by
  match i with
  | none => exact List.Sublist.refl projs
  | some idx =>
    simp only [remove_projectile]
    split
    · exact List.eraseIdx_sublist projs idx
    · exact List.Sublist.refl projs

theorem remove_projectile_found_length {l : List Nat} {pos : Nat} {i : Nat}
    (h : find_at pos l = some i) :
    (remove_projectile l (some i)).length + 1 = l.length := by
  obtain ⟨l₁, l₂, hl, hlen⟩ := find_at_some_decomp h
  have hi : i < l.length := by rw [hl, ← hlen]; simp
  simp only [remove_projectile, if_pos hi]
  rw [List.length_eraseIdx, if_pos hi]
  omega

/-! ### Arithmetic of the packed position encoding -/

theorem u8_natCast (n : Nat) : u8 (n : Int) = n % 256 := by
  unfold u8; omega

theorem u8_natCast_sub_one (y : Nat) (h : 1 ≤ y) :
    u8 ((y : Int) - 1) = (y - 1) % 256 := by
  unfold u8; omega

theorem GAME_POSITION_lt (x y : Int) : GAME_POSITION x y < 256 := by
  unfold GAME_POSITION u8; omega

theorem GAME_POSITION_mod16 (x y : Int) :
    GAME_POSITION x y % 16 = u8 y % 16 := by
  unfold GAME_POSITION; omega

theorem GAME_POSITION_nat_mod16 (x y : Nat) (h : y < 16) :
    GAME_POSITION (x : Int) (y : Int) % 16 = y := by
  rw [GAME_POSITION_mod16, u8_natCast]; omega

theorem GAME_POSITION_nat_sub_one_mod16 (x y : Nat) (h1 : 1 ≤ y) (h2 : y < 16) :
    GAME_POSITION (x : Int) ((y : Int) - 1) % 16 = y - 1 := by
  rw [GAME_POSITION_mod16, u8_natCast_sub_one y h1]; omega

theorem GAME_POSITION_int15_mod16 (x : Int) : GAME_POSITION x 15 % 16 = 15 := by
  unfold GAME_POSITION u8; omega

theorem GAME_POSITION_int2_mod16 (x : Int) : GAME_POSITION x 2 % 16 = 2 := by
  unfold GAME_POSITION u8; omega

theorem GAME_POSITION_ne_of_mod16 {x y x2 y2 : Int}
    (h : GAME_POSITION x y % 16 ≠ GAME_POSITION x2 y2 % 16) :
    GAME_POSITION x y ≠ GAME_POSITION x2 y2 := fun he => h (by rw [he])

/-! ### The random-placement retry loops -/

theorem find_free_x15_some {asts : List Nat} :
    ∀ {draws : List Nat} {x : Nat} {rest : List Nat},
    find_free_x15 asts draws = some (x, rest) →
    x < 8 ∧ GAME_POSITION (x : Int) 15 ∉ asts := by
  intro draws
  induction draws with
  | nil => simp [find_free_x15]
  | cons d r ih =>
    intro x rest h
    rw [find_free_x15] at h
    split at h
    · next hfree =>
        obtain ⟨rfl, rfl⟩ := by simpa using h
        refine ⟨by unfold FIELD_WIDTH; omega, ?_⟩
        have := find_at_eq_none.1 hfree
        simpa [asteroid_at] using this
    · exact ih h

theorem find_free_x15_none_of_full {asts : List Nat}
    (hfull : ∀ x : Nat, x < 8 → GAME_POSITION (x : Int) 15 ∈ asts) :
    ∀ draws : List Nat, find_free_x15 asts draws = none := by
  intro draws
  induction draws with
  | nil => rfl
  | cons d r ih =>
    rw [find_free_x15]
    have hmem : GAME_POSITION ((d % FIELD_WIDTH : Nat) : Int) 15 ∈ asts :=
      hfull (d % FIELD_WIDTH) (by unfold FIELD_WIDTH; omega)
    have hne : asteroid_at asts ((d % FIELD_WIDTH : Nat) : Int) 15 ≠ none := by
      intro hn
      rw [asteroid_at] at hn
      exact (find_at_eq_none.1 hn) hmem
    simp only [if_neg hne]
    exact ih

theorem regen_list_some {asts draws out rest}
    (h : regen_list asts draws = some (out, rest)) :
    ∃ x : Nat, x < 8 ∧ GAME_POSITION (x : Int) 15 ∉ asts ∧
      out = asts ++ [GAME_POSITION (x : Int) 15] := by
  rw [regen_list] at h
  split at h
  · exact absurd h (by simp)
  · next x0 r0 heq =>
      obtain ⟨hx, hnm⟩ := find_free_x15_some heq
      obtain ⟨rfl, rfl⟩ := by simpa using h
      exact ⟨x0, hx, hnm, rfl⟩

theorem regen_list_length {asts draws out rest}
    (h : regen_list asts draws = some (out, rest)) :
    out.length = asts.length + 1 := by
  obtain ⟨x, _, _, rfl⟩ := regen_list_some h
  simp

theorem regen_list_nodup {asts draws out rest}
    (h : regen_list asts draws = some (out, rest)) (hnd : asts.Nodup) :
    out.Nodup := by
  obtain ⟨x, _, hnm, rfl⟩ := regen_list_some h
  simp [List.Nodup, List.pairwise_append]
  exact ⟨hnd, fun a ha he => hnm (he ▸ ha)⟩

theorem regen_list_mem {asts draws out rest a}
    (h : regen_list asts draws = some (out, rest)) (ha : a ∈ out) :
    a ∈ asts ∨ a % 16 = 15 := by
  obtain ⟨x, _, _, rfl⟩ := regen_list_some h
  rcases List.mem_append.1 ha with h1 | h1
  · exact Or.inl h1
  · right
    have : a = GAME_POSITION (x : Int) 15 := by simpa using h1
    rw [this, GAME_POSITION_int15_mod16]

theorem regen_list_bound {asts draws out rest a}
    (h : regen_list asts draws = some (out, rest)) (hb : ∀ p ∈ asts, p < 256)
    (ha : a ∈ out) : a < 256 := by
  obtain ⟨x, _, _, rfl⟩ := regen_list_some h
  rcases List.mem_append.1 ha with h1 | h1
  · exact hb a h1
  · have : a = GAME_POSITION (x : Int) 15 := by simpa using h1
    rw [this]; exact GAME_POSITION_lt _ _

theorem regen_list_not_mem {asts draws out rest a}
    (h : regen_list asts draws = some (out, rest)) (hnm : a ∉ asts)
    (hm : a % 16 ≠ 15) : a ∉ out := by
  obtain ⟨x, _, _, rfl⟩ := regen_list_some h
  intro hmem
  rcases List.mem_append.1 hmem with h1 | h1
  · exact hnm h1
  · have : a = GAME_POSITION (x : Int) 15 := by simpa using h1
    rw [this, GAME_POSITION_int15_mod16] at hm
    exact hm rfl

theorem find_free_init_some {asts : List Nat} :
    ∀ (draws : List Nat) (x y : Nat) (rest : List Nat),
    find_free_init asts draws = some (x, y, rest) →
    x < 8 ∧ 3 ≤ y ∧ y ≤ 15 ∧ GAME_POSITION (x : Int) (y : Int) ∉ asts
  | [] => by intro x y r h; simp [find_free_init] at h
  | [d] => by intro x y r h; simp [find_free_init] at h
  | dx :: dy :: rest => by
    intro x y r h
    rw [find_free_init] at h
    split at h
    · next hfree =>
        obtain ⟨rfl, rfl, rfl⟩ := by simpa using h
        refine ⟨by unfold FIELD_WIDTH; omega,
          by unfold FIELD_HEIGHT; omega, by unfold FIELD_HEIGHT; omega, ?_⟩
        have := find_at_eq_none.1 hfree
        simpa [asteroid_at] using this
    · exact find_free_init_some rest x y r h

theorem init_asteroids_spec :
    ∀ (n : Nat) (asts draws : List Nat) {out rest : List Nat},
    init_asteroids n asts draws = some (out, rest) →
    asts.Nodup → (∀ p ∈ asts, 3 ≤ p % 16 ∧ p < 256) →
    out.length = asts.length + n ∧ out.Nodup ∧
      ∀ p ∈ out, 3 ≤ p % 16 ∧ p < 256 := by
  intro n
  induction n with
  | zero =>
    intro asts draws out rest h hnd hy
    obtain ⟨rfl, rfl⟩ := by simpa [init_asteroids] using h
    exact ⟨rfl, hnd, hy⟩
  | succ m ih =>
    intro asts draws out rest h hnd hy
    rw [init_asteroids] at h
    split at h
    · exact absurd h (by simp)
    · next x y r heq =>
        obtain ⟨hx, hy3, hy15, hnm⟩ := find_free_init_some draws _ _ _ heq
        have hmod : GAME_POSITION (x : Int) (y : Int) % 16 = y :=
          GAME_POSITION_nat_mod16 x y (by omega)
        have hnd2 : (asts ++ [GAME_POSITION (x : Int) (y : Int)]).Nodup := by
          simp [List.Nodup, List.pairwise_append]
          exact ⟨hnd, fun a ha he => hnm (he ▸ ha)⟩
        have hy2 : ∀ p ∈ asts ++ [GAME_POSITION (x : Int) (y : Int)],
            3 ≤ p % 16 ∧ p < 256 := by
          intro p hp
          rcases List.mem_append.1 hp with h1 | h1
          · exact hy p h1
          · have : p = GAME_POSITION (x : Int) (y : Int) := by simpa using h1
            subst this
            exact ⟨by omega, GAME_POSITION_lt _ _⟩
        obtain ⟨hl, hn, hm⟩ := ih _ r h hnd2 hy2
        refine ⟨by simp at hl; omega, hn, hm⟩

/-! ### Elimination and preservation lemmas for the engine operations -/

theorem regen_asteroid_some {s : GameState} {draws : List Nat} {s2 : GameState}
    {d2 : List Nat} (h : regen_asteroid s draws = some (s2, d2)) :
    regen_list s.asteroids draws = some (s2.asteroids, d2) ∧
    s2.basePosition = s.basePosition ∧ s2.projectiles = s.projectiles ∧
    s2.lives = s.lives ∧ s2.score = s.score := by
  rw [regen_asteroid] at h
  split at h
  · exact absurd h (by simp)
  · next asts rest heq =>
      obtain ⟨rfl, rfl⟩ := by simpa using h
      exact ⟨heq, rfl, rfl, rfl, rfl⟩

theorem ram_check_fields (s : GameState) (x y : Int) :
    (ram_check s x y).basePosition = s.basePosition ∧
    (ram_check s x y).projectiles = s.projectiles ∧
    (ram_check s x y).score = s.score := by
  rw [ram_check]; split <;> simp

theorem ram_check_lives (s : GameState) (x y : Int) :
    (ram_check s x y).lives ≤ s.lives := by
  rw [ram_check]; split
  · exact le_refl _
  · simp

theorem ram_check_asteroids (s : GameState) (x y : Int) :
    (ram_check s x y).asteroids = s.asteroids ∨
    ((ram_check s x y).asteroids.length + 1 = s.asteroids.length ∧
      (ram_check s x y).lives = s.lives - 1) := by
  rw [ram_check]
  split
  · exact Or.inl rfl
  · next i hi =>
      rw [asteroid_at] at hi
      exact Or.inr ⟨remove_found_length hi, rfl⟩

theorem ram_check_nodup {s : GameState} (x y : Int) (h : s.asteroids.Nodup) :
    (ram_check s x y).asteroids.Nodup := by
  rw [ram_check]
  split
  · exact h
  · next i hi =>
      rw [asteroid_at] at hi
      exact remove_found_nodup hi h

theorem ram_check_bound {s : GameState} (x y : Int)
    (h : ∀ p ∈ s.asteroids, p < 256) :
    ∀ p ∈ (ram_check s x y).asteroids, p < 256 := by
  rw [ram_check]
  split
  · exact h
  · next i hi =>
      rw [asteroid_at] at hi
      exact fun p hp => h p (remove_found_subset hi hp)

theorem move_base_basePosition (d : Direction) (s : GameState) :
    (move_base d s).1.basePosition = s.basePosition ∨
    (move_base d s).1.basePosition = s.basePosition - 1 ∧ d = .left ∧
      s.basePosition ≠ 0 ∨
    (move_base d s).1.basePosition = s.basePosition + 1 ∧ d = .right ∧
      s.basePosition ≠ 7 := by
  cases d with
  | left =>
    rw [move_base]
    split
    · next h => exact Or.inr (Or.inl ⟨by simp, rfl, h⟩)
    · exact Or.inl rfl
  | right =>
    rw [move_base]
    split
    · next h => exact Or.inr (Or.inr ⟨by simp, rfl, h⟩)
    · exact Or.inl rfl

theorem move_base_range {s : GameState} (d : Direction)
    (h0 : 0 ≤ s.basePosition) (h7 : s.basePosition ≤ 7) :
    0 ≤ (move_base d s).1.basePosition ∧ (move_base d s).1.basePosition ≤ 7 := by
  rcases move_base_basePosition d s with h | ⟨h, _, hne⟩ | ⟨h, _, hne⟩ <;>
    rw [h] <;> omega

theorem move_base_refused_left {s : GameState} (h : s.basePosition = 0) :
    move_base .left s = (s, 0) := by
  rw [move_base]
  simp [h]

theorem move_base_refused_right {s : GameState} (h : s.basePosition = 7) :
    move_base .right s = (s, 0) := by
  rw [move_base]
  simp [h]

theorem move_base_lives (d : Direction) (s : GameState) :
    (move_base d s).1.lives ≤ s.lives := by
  cases d with
  | left =>
    rw [move_base]
    split
    · simp only []
      exact le_trans (le_trans (le_refl _)
        (ram_check_lives (ram_check s (s.basePosition - 2) 0) (s.basePosition - 1) 1))
        (ram_check_lives s (s.basePosition - 2) 0)
    · exact le_refl _
  | right =>
    rw [move_base]
    split
    · simp only []
      exact le_trans (le_trans (le_refl _)
        (ram_check_lives (ram_check s (s.basePosition + 2) 0) (s.basePosition + 1) 1))
        (ram_check_lives s (s.basePosition + 2) 0)
    · exact le_refl _

theorem move_base_nodup {s : GameState} (d : Direction)
    (h : s.asteroids.Nodup) : (move_base d s).1.asteroids.Nodup := by
  cases d with
  | left =>
    rw [move_base]
    split
    · exact ram_check_nodup _ _ (ram_check_nodup _ _ h)
    · exact h
  | right =>
    rw [move_base]
    split
    · exact ram_check_nodup _ _ (ram_check_nodup _ _ h)
    · exact h

theorem move_base_bound {s : GameState} (d : Direction)
    (h : ∀ p ∈ s.asteroids, p < 256) :
    ∀ p ∈ (move_base d s).1.asteroids, p < 256 := by
  cases d with
  | left =>
    rw [move_base]
    split
    · exact ram_check_bound _ _ (ram_check_bound _ _ h)
    · exact h
  | right =>
    rw [move_base]
    split
    · exact ram_check_bound _ _ (ram_check_bound _ _ h)
    · exact h

theorem move_base_projectiles (d : Direction) (s : GameState) :
    (move_base d s).1.projectiles = s.projectiles := by
  cases d with
  | left =>
    rw [move_base]
    split
    · simp only []
      rw [(ram_check_fields _ _ _).2.1, (ram_check_fields _ _ _).2.1]
    · rfl
  | right =>
    rw [move_base]
    split
    · simp only []
      rw [(ram_check_fields _ _ _).2.1, (ram_check_fields _ _ _).2.1]
    · rfl

theorem fire_projectile_spec {s : GameState} {draws : List Nat}
    {s2 : GameState} {d2 : List Nat} {r : Int}
    (h : fire_projectile s draws = some (s2, d2, r)) :
    (s2 = s ∧ d2 = draws ∧ r = 0) ∨
    (∃ i, asteroid_at s.asteroids s.basePosition 2 = some i ∧
      s2.projectiles = s.projectiles ∧ s2.basePosition = s.basePosition ∧
      s2.lives = s.lives ∧ s2.score = s.score + 1 ∧ r = 1 ∧
      regen_list (remove_asteroid s.asteroids (some i)) draws
        = some (s2.asteroids, d2)) ∨
    (projectile_at s.projectiles s.basePosition 2 = none ∧
      s2 = { s with
        projectiles := s.projectiles ++ [GAME_POSITION s.basePosition 2] } ∧
      d2 = draws ∧ r = 1) := by
  rw [fire_projectile] at h
  split at h
  · next hcond =>
      split at h
      · next i hi =>
          split at h
          · exact absurd h (by simp)
          · next s3 rest heq =>
              obtain ⟨rfl, rfl, rfl⟩ := by simpa using h
              obtain ⟨hregen, hbp, hpr, hlv, hsc⟩ := regen_asteroid_some heq
              refine Or.inr (Or.inl ⟨i, hi, ?_, ?_, ?_, ?_, rfl, ?_⟩)
              · simpa using hpr
              · simpa using hbp
              · simpa using hlv
              · simp [hsc]
              · simpa using hregen
      · next hi =>
          obtain ⟨rfl, rfl, rfl⟩ := by simpa using h
          exact Or.inr (Or.inr ⟨hcond.2, rfl, rfl, rfl⟩)
  · obtain ⟨rfl, rfl, rfl⟩ := by simpa using h
    exact Or.inl ⟨rfl, rfl, rfl⟩

theorem fire_projectile_lives {s : GameState} {draws : List Nat}
    {s2 : GameState} {d2 : List Nat} {r : Int}
    (h : fire_projectile s draws = some (s2, d2, r)) : s2.lives = s.lives := by
  rcases fire_projectile_spec h with ⟨rfl, _, _⟩ | ⟨i, _, _, _, hl, _⟩ |
    ⟨_, rfl, _, _⟩
  · rfl
  · exact hl
  · rfl

theorem fire_projectile_length {s : GameState} {draws : List Nat}
    {s2 : GameState} {d2 : List Nat} {r : Int}
    (h : fire_projectile s draws = some (s2, d2, r)) :
    s2.asteroids.length = s.asteroids.length := by
  rcases fire_projectile_spec h with ⟨rfl, _, _⟩ |
    ⟨i, hi, _, _, _, _, _, hregen⟩ | ⟨_, rfl, _, _⟩
  · rfl
  · rw [asteroid_at] at hi
    have h1 := remove_found_length hi
    have h2 := regen_list_length hregen
    omega
  · rfl

theorem fire_projectile_wf {s : GameState} {draws : List Nat}
    {s2 : GameState} {d2 : List Nat} {r : Int}
    (h : fire_projectile s draws = some (s2, d2, r))
    (ha : s.asteroids.Nodup) (hab : ∀ p ∈ s.asteroids, p < 256)
    (hp : s.projectiles.Nodup) (hpb : ∀ p ∈ s.projectiles, p < 256) :
    s2.asteroids.Nodup ∧ (∀ p ∈ s2.asteroids, p < 256) ∧
    s2.projectiles.Nodup ∧ (∀ p ∈ s2.projectiles, p < 256) := by
  rcases fire_projectile_spec h with ⟨rfl, _, _⟩ |
    ⟨i, hi, hpr, _, _, _, _, hregen⟩ | ⟨hfree, rfl, _, _⟩
  · exact ⟨ha, hab, hp, hpb⟩
  · rw [asteroid_at] at hi
    refine ⟨regen_list_nodup hregen (remove_found_nodup hi ha), ?_, ?_, ?_⟩
    · exact fun p hm =>
        regen_list_bound hregen (fun q hq => hab q (remove_found_subset hi hq)) hm
    · rw [hpr]; exact hp
    · rw [hpr]; exact hpb
  · refine ⟨ha, hab, ?_, ?_⟩
    · simp only []
      rw [projectile_at] at hfree
      have hnm := find_at_eq_none.1 hfree
      simp [List.Nodup, List.pairwise_append]
      exact ⟨hp, fun a hq he => hnm (he ▸ hq)⟩
    · simp only []
      intro p hm
      rcases List.mem_append.1 hm with h1 | h1
      · exact hpb p h1
      · have : p = GAME_POSITION s.basePosition 2 := by simpa using h1
        rw [this]; exact GAME_POSITION_lt _ _

/-! ### The cell scan of advance_asteroids -/

theorem advance_cell_basic {x y : Nat} {s : GameState} {draws : List Nat}
    {s2 : GameState} {d2 : List Nat}
    (h : advance_cell x y s draws = some (s2, d2)) :
    s2.asteroids.length = s.asteroids.length ∧
    s2.lives ≤ s.lives ∧
    List.Sublist s2.projectiles s.projectiles ∧
    s2.basePosition = s.basePosition ∧
    ((∀ p ∈ s.asteroids, p < 256) → ∀ p ∈ s2.asteroids, p < 256) := by
  simp only [advance_cell] at h
  split at h
  · obtain ⟨rfl, rfl⟩ := by simpa using h
    exact ⟨rfl, le_refl _, List.Sublist.refl _, rfl, fun hb => hb⟩
  · next i hi =>
      rw [asteroid_at] at hi
      have hrem := remove_found_length hi
      have hremb : (∀ p ∈ s.asteroids, p < 256) →
          ∀ p ∈ remove_asteroid s.asteroids (some i), p < 256 :=
        fun hb p hq => hb p (remove_found_subset hi hq)
      split at h
      · next j hj =>
          obtain ⟨hregen, hbp, hpr, hlv, hsc⟩ := regen_asteroid_some h
          have hlen := regen_list_length hregen
          refine ⟨by simp at hlen; omega, by simp at hlv; omega, ?_, by simpa using hbp, ?_⟩
          · rw [show s2.projectiles = remove_projectile s.projectiles (some j) by
              simpa using hpr]
            exact remove_projectile_sublist _ _
          · intro hb
            exact fun p hm => regen_list_bound hregen (hremb hb) hm
      · split at h
        · next j hj =>
            obtain ⟨hregen, hbp, hpr, hlv, hsc⟩ := regen_asteroid_some h
            have hlen := regen_list_length hregen
            refine ⟨by simp at hlen; omega, by simp at hlv; omega, ?_,
              by simpa using hbp, ?_⟩
            · rw [show s2.projectiles = remove_projectile s.projectiles (some j) by
                simpa using hpr]
              exact remove_projectile_sublist _ _
            · intro hb
              exact fun p hm => regen_list_bound hregen (hremb hb) hm
        · split at h
          · obtain ⟨hregen, hbp, hpr, hlv, hsc⟩ := regen_asteroid_some h
            have hlen := regen_list_length hregen
            have hpr2 : s2.projectiles = s.projectiles := by simpa using hpr
            have hlv2 : s2.lives = s.lives - 1 := by simpa using hlv
            refine ⟨by simp at hlen; omega, by omega, ?_,
              by simpa using hbp, ?_⟩
            · rw [hpr2]
            · intro hb
              exact fun p hm => regen_list_bound hregen (hremb hb) hm
          · split at h
            · obtain ⟨rfl, rfl⟩ := by simpa using h
              refine ⟨by simp; omega, by simp, by simp, by simp, ?_⟩
              intro hb p hm
              simp only [] at hm
              rcases List.mem_append.1 hm with h1 | h1
              · exact hremb hb p h1
              · have : p = GAME_POSITION (x : Int) ((y : Int) - 1) := by
                  simpa using h1
                rw [this]; exact GAME_POSITION_lt _ _
            · split at h
              · exact absurd h (by simp)
              · next nx rest hfind =>
                  obtain ⟨rfl, rfl⟩ := by simpa using h
                  refine ⟨by simp; omega, by simp, by simp, by simp, ?_⟩
                  intro hb p hm
                  simp only [] at hm
                  rcases List.mem_append.1 hm with h1 | h1
                  · exact hremb hb p h1
                  · have : p = GAME_POSITION (nx : Int) 15 := by simpa using h1
                    rw [this]; exact GAME_POSITION_lt _ _

/-- The distinctness invariant through one cell of the scan: if the
asteroid positions are distinct and the cell one row below the scan cell is
free (it was vacated when the scan passed it), they remain distinct, and for
a scan cell below row 15 the scan cell itself is left free (additions go to
the cell below or to row 15). -/
theorem advance_cell_inv {x y : Nat} {s : GameState} {draws : List Nat}
    {s2 : GameState} {d2 : List Nat}
    (hy : y ≤ 15)
    (hnd : s.asteroids.Nodup)
    (hprev : 1 ≤ y → GAME_POSITION (x : Int) ((y : Int) - 1) ∉ s.asteroids)
    (h : advance_cell x y s draws = some (s2, d2)) :
    s2.asteroids.Nodup ∧
    (y ≤ 14 → GAME_POSITION (x : Int) (y : Int) ∉ s2.asteroids) := by
  have hmody : GAME_POSITION (x : Int) (y : Int) % 16 = y :=
    GAME_POSITION_nat_mod16 x y (by omega)
  simp only [advance_cell] at h
  split at h
  · next hi =>
      obtain ⟨rfl, rfl⟩ := by simpa using h
      rw [asteroid_at] at hi
      exact ⟨hnd, fun _ => find_at_eq_none.1 hi⟩
  · next i hi =>
      rw [asteroid_at] at hi
      have hrnd := remove_found_nodup hi hnd
      have hrnm := remove_found_not_mem hi hnd
      split at h
      · next j hj =>
          obtain ⟨hregen, hbp, hpr, hlv, hsc⟩ := regen_asteroid_some h
          simp only [] at hregen
          refine ⟨regen_list_nodup hregen hrnd, fun h14 => ?_⟩
          exact regen_list_not_mem hregen hrnm (by omega)
      · split at h
        · next j hj =>
            obtain ⟨hregen, hbp, hpr, hlv, hsc⟩ := regen_asteroid_some h
            simp only [] at hregen
            refine ⟨regen_list_nodup hregen hrnd, fun h14 => ?_⟩
            exact regen_list_not_mem hregen hrnm (by omega)
        · split at h
          · obtain ⟨hregen, hbp, hpr, hlv, hsc⟩ := regen_asteroid_some h
            simp only [] at hregen
            refine ⟨regen_list_nodup hregen hrnd, fun h14 => ?_⟩
            exact regen_list_not_mem hregen hrnm (by omega)
          · split at h
            · next hy0 =>
                obtain ⟨rfl, rfl⟩ := by simpa using h
                have hy1 : 1 ≤ y := by omega
                have hmody1 : GAME_POSITION (x : Int) ((y : Int) - 1) % 16 = y - 1 :=
                  GAME_POSITION_nat_sub_one_mod16 x y hy1 (by omega)
                have hnm1 : GAME_POSITION (x : Int) ((y : Int) - 1)
                    ∉ remove_asteroid s.asteroids (some i) :=
                  remove_found_not_mem_of_not_mem hi (hprev hy1)
                constructor
                · simp only []
                  simp [List.Nodup, List.pairwise_append]
                  exact ⟨hrnd, fun a ha he => hnm1 (he ▸ ha)⟩
                · intro h14
                  simp only []
                  intro hmem
                  rcases List.mem_append.1 hmem with h1 | h1
                  · exact hrnm h1
                  · have he : GAME_POSITION (x : Int) (y : Int)
                        = GAME_POSITION (x : Int) ((y : Int) - 1) := by
                      simpa using h1
                    rw [he, hmody1] at hmody
                    omega
            · split at h
              · exact absurd h (by simp)
              · next nx rest hfind =>
                  obtain ⟨rfl, rfl⟩ := by simpa using h
                  obtain ⟨hnx, hfnm⟩ := find_free_x15_some hfind
                  constructor
                  · simp only []
                    simp [List.Nodup, List.pairwise_append]
                    exact ⟨hrnd, fun a ha he => hfnm (he ▸ ha)⟩
                  · intro h14
                    simp only []
                    intro hmem
                    rcases List.mem_append.1 hmem with h1 | h1
                    · exact hrnm h1
                    · have he : GAME_POSITION (x : Int) (y : Int)
                          = GAME_POSITION (nx : Int) 15 := by
                        simpa using h1
                      rw [he, GAME_POSITION_int15_mod16] at hmody
                      omega

theorem advance_cells_append (c1 c2 : List (Nat × Nat)) (s : GameState)
    (draws : List Nat) :
    advance_cells (c1 ++ c2) s draws =
    match advance_cells c1 s draws with
    | none => none
    | some (s2, d2) => advance_cells c2 s2 d2 := by
  induction c1 generalizing s draws with
  | nil => simp [advance_cells]
  | cons c cs ih =>
    obtain ⟨x, y⟩ := c
    rw [List.cons_append, advance_cells, advance_cells]
    cases advance_cell x y s draws with
    | none => rfl
    | some v => obtain ⟨s3, d3⟩ := v; exact ih s3 d3

theorem advance_cells_basic :
    ∀ (cells : List (Nat × Nat)) (s : GameState) (draws : List Nat)
    {s2 : GameState} {d2 : List Nat},
    advance_cells cells s draws = some (s2, d2) →
    s2.asteroids.length = s.asteroids.length ∧
    s2.lives ≤ s.lives ∧
    List.Sublist s2.projectiles s.projectiles ∧
    s2.basePosition = s.basePosition ∧
    ((∀ p ∈ s.asteroids, p < 256) → ∀ p ∈ s2.asteroids, p < 256) := by
  intro cells
  induction cells with
  | nil =>
    intro s draws s2 d2 h
    obtain ⟨rfl, rfl⟩ := by simpa [advance_cells] using h
    exact ⟨rfl, le_refl _, List.Sublist.refl _, rfl, fun hb => hb⟩
  | cons c cs ih =>
    intro s draws s2 d2 h
    obtain ⟨x, y⟩ := c
    rw [advance_cells] at h
    split at h
    · exact absurd h (by simp)
    · next s3 d3 heq =>
        obtain ⟨hl1, hv1, hs1, hb1, hbd1⟩ := advance_cell_basic heq
        obtain ⟨hl2, hv2, hs2, hb2, hbd2⟩ := ih s3 d3 h
        exact ⟨hl2.trans hl1, hv2.trans hv1, hs2.trans hs1, hb2.trans hb1,
          fun hb => hbd2 (hbd1 hb)⟩

/-- Distinctness along one column of the scan (cells (x,k), (x,k+1), ...,
(x,15)): the cell below the current scan cell is always free, so the
downward moves never collide. -/
theorem advance_cells_col_nodup :
    ∀ (n k : Nat) (x : Nat) (s : GameState) (draws : List Nat)
    {s2 : GameState} {d2 : List Nat},
    k + n = 16 →
    s.asteroids.Nodup →
    (1 ≤ k → k ≤ 15 → GAME_POSITION (x : Int) ((k : Int) - 1) ∉ s.asteroids) →
    advance_cells ((ascRange k n).map fun y => (x, y)) s draws = some (s2, d2) →
    s2.asteroids.Nodup := by
  intro n
  induction n with
  | zero =>
    intro k x s draws s2 d2 h16 hnd hprev h
    obtain ⟨rfl, rfl⟩ := by simpa [ascRange, advance_cells] using h
    exact hnd
  | succ m ih =>
    intro k x s draws s2 d2 h16 hnd hprev h
    rw [ascRange] at h
    rw [List.map_cons, advance_cells] at h
    split at h
    · exact absurd h (by simp)
    · next s3 d3 heq =>
        obtain ⟨hnd3, hfree3⟩ :=
          advance_cell_inv (by omega) hnd (fun h1 => hprev h1 (by omega)) heq
        refine ih (k + 1) x s3 d3 (by omega) hnd3 ?_ h
        intro hk1 hk15
        have hc : ((k + 1 : Nat) : Int) - 1 = (k : Int) := by push_cast; ring
        rw [hc]
        exact hfree3 (by omega)

theorem advance_asteroids_nodup {s : GameState} {draws : List Nat}
    {s2 : GameState} {d2 : List Nat}
    (h : advance_asteroids s draws = some (s2, d2))
    (hnd : s.asteroids.Nodup) : s2.asteroids.Nodup := by
  rw [advance_asteroids, cellList] at h
  have main : ∀ (xs : List Nat) (s : GameState) (draws : List Nat)
      {s2 : GameState} {d2 : List Nat},
      advance_cells (xs.flatMap fun x => (ascRange 0 16).map fun y => (x, y))
        s draws = some (s2, d2) →
      s.asteroids.Nodup → s2.asteroids.Nodup := by
    intro xs
    induction xs with
    | nil =>
      intro s draws s2 d2 h hnd
      obtain ⟨rfl, rfl⟩ := by simpa [advance_cells] using h
      exact hnd
    | cons x xs ih =>
      intro s draws s2 d2 h hnd
      rw [List.flatMap_cons, advance_cells_append] at h
      split at h
      · exact absurd h (by simp)
      · next s3 d3 heq =>
          have hnd3 : s3.asteroids.Nodup :=
            advance_cells_col_nodup 16 0 x s draws rfl hnd
              (fun habs _ => absurd habs (by omega)) heq
          exact ih s3 d3 h hnd3
  exact main _ s draws h hnd

/-- The packed position one row above p, for a projectile that is not
leaving the field, is p + 1. -/
theorem GAME_POSITION_up_one {p : Nat} (hb : p < 256) (ht : p % 16 + 1 ≠ 16) :
    GAME_POSITION ((p / 16 : Nat) : Int) ((p % 16 + 1 : Nat) : Int) = p + 1 := by
  unfold GAME_POSITION
  rw [u8_natCast, u8_natCast]
  omega

/-- Invariants through the advance_projectiles loop: the projectiles array
is done ++ todo with procd the already-consumed originals; the surviving
moved projectiles (done) are the packed positions one above a sublist of the
consumed originals. -/
theorem advance_projectiles_loop_spec :
    ∀ (todo asts : List Nat) (score : Nat) (done procd draws : List Nat)
    {asts2 projs2 : List Nat} {score2 : Nat} {rest2 : List Nat},
    advance_projectiles_loop asts score done todo draws
      = some (asts2, projs2, score2, rest2) →
    asts.Nodup → (∀ p ∈ asts, p < 256) →
    (procd ++ todo).Nodup → (∀ p ∈ procd ++ todo, p < 256) →
    (∃ S, List.Sublist S procd ∧ done = S.map (· + 1)) →
    (∀ q ∈ done, q < 256) →
    asts2.Nodup ∧ (∀ p ∈ asts2, p < 256) ∧ asts2.length = asts.length ∧
      projs2.Nodup ∧ (∀ p ∈ projs2, p < 256) := by
  intro todo
  induction todo with
  | nil =>
    intro asts score done procd draws asts2 projs2 score2 rest2 h hand hab
      hpnd hpb hS hdb
    obtain ⟨rfl, rfl, rfl, rfl⟩ := by
      simpa [advance_projectiles_loop] using h
    obtain ⟨S, hsub, rfl⟩ := hS
    refine ⟨hand, hab, rfl, ?_, hdb⟩
    have hSnd : S.Nodup := hsub.nodup (by simpa using hpnd)
    exact hSnd.map (fun a b hab2 => by omega)
  | cons p rest ih =>
    intro asts score done procd draws asts2 projs2 score2 rest2 h hand hab
      hpnd hpb hS hdb
    have hassoc : (procd ++ [p]) ++ rest = procd ++ p :: rest := by simp
    have hpnd2 : ((procd ++ [p]) ++ rest).Nodup := by rw [hassoc]; exact hpnd
    have hpb2 : ∀ q ∈ (procd ++ [p]) ++ rest, q < 256 := by
      rw [hassoc]; exact hpb
    have hpbound : p < 256 := hpb p (by simp)
    rw [advance_projectiles_loop] at h
    split at h
    · next htop =>
        obtain ⟨S, hsub, rfl⟩ := hS
        exact ih asts score _ (procd ++ [p]) draws h hand hab hpnd2 hpb2
          ⟨S, hsub.trans (List.sublist_append_left procd [p]), rfl⟩ hdb
    · next htop =>
        split at h
        · next i hi =>
            split at h
            · exact absurd h (by simp)
            · next asts3 d3 heq =>
                rw [asteroid_at] at hi
                have hand3 := regen_list_nodup heq (remove_found_nodup hi hand)
                have hab3 : ∀ q ∈ asts3, q < 256 := fun q hq =>
                  regen_list_bound heq
                    (fun a haq => hab a (remove_found_subset hi haq)) hq
                have hlen3 : asts3.length = asts.length := by
                  have h1 := remove_found_length hi
                  have h2 := regen_list_length heq
                  omega
                obtain ⟨S, hsub, rfl⟩ := hS
                obtain ⟨hr1, hr2, hr3, hr4, hr5⟩ :=
                  ih asts3 (score + 1) _ (procd ++ [p]) d3 h hand3 hab3
                    hpnd2 hpb2
                    ⟨S, hsub.trans (List.sublist_append_left procd [p]), rfl⟩ hdb
                exact ⟨hr1, hr2, by omega, hr4, hr5⟩
        · next hi =>
            obtain ⟨S, hsub, rfl⟩ := hS
            have hFH : p % 16 + 1 ≠ 16 := by
              intro hc; exact htop (by rw [hc]; rfl)
            have hup := GAME_POSITION_up_one hpbound hFH
            refine ih asts score _ (procd ++ [p]) draws h hand hab hpnd2 hpb2
              ⟨S ++ [p], ?_, ?_⟩ ?_
            · exact List.Sublist.append hsub (List.Sublist.refl [p])
            · rw [List.map_append, hup]; rfl
            · intro q hq
              rcases List.mem_append.1 hq with h1 | h1
              · exact hdb q h1
              · have : q = GAME_POSITION ((p / 16 : Nat) : Int)
                    ((p % 16 + 1 : Nat) : Int) := by simpa using h1
                rw [this, hup]
                omega

theorem advance_projectiles_some {s : GameState} {draws : List Nat}
    {s2 : GameState} {d2 : List Nat}
    (h : advance_projectiles s draws = some (s2, d2)) :
    ∃ asts2 projs2 score2,
      advance_projectiles_loop s.asteroids s.score [] s.projectiles draws
        = some (asts2, projs2, score2, d2) ∧
      s2 = { s with asteroids := asts2, projectiles := projs2, score := score2 } := by
  rw [advance_projectiles] at h
  split at h
  · exact absurd h (by simp)
  · next asts3 projs3 score3 rest3 heq =>
      obtain ⟨rfl, rfl⟩ := by simpa using h
      exact ⟨asts3, projs3, score3, heq, rfl⟩

theorem advance_projectiles_wf {s : GameState} {draws : List Nat}
    {s2 : GameState} {d2 : List Nat}
    (h : advance_projectiles s draws = some (s2, d2))
    (ha : s.asteroids.Nodup) (hab : ∀ p ∈ s.asteroids, p < 256)
    (hp : s.projectiles.Nodup) (hpb : ∀ p ∈ s.projectiles, p < 256) :
    s2.asteroids.Nodup ∧ (∀ p ∈ s2.asteroids, p < 256) ∧
    s2.asteroids.length = s.asteroids.length ∧
    s2.projectiles.Nodup ∧ (∀ p ∈ s2.projectiles, p < 256) ∧
    s2.lives = s.lives ∧ s2.basePosition = s.basePosition := by
  obtain ⟨asts2, projs2, score2, hloop, rfl⟩ := advance_projectiles_some h
  obtain ⟨h1, h2, h3, h4, h5⟩ :=
    advance_projectiles_loop_spec s.projectiles s.asteroids s.score [] []
      draws hloop ha hab (by simpa using hp) (by simpa using hpb)
      ⟨[], List.nil_sublist [], rfl⟩ (by simp)
  exact ⟨h1, h2, h3, h4, h5, rfl, rfl⟩

/-- A projectile at the top row (packed y nibble 15) is simply dropped by
the loop, with no effect on the asteroid array, the score, the draws, or
any other projectile: the run is the same as the run without it. -/
theorem advance_projectiles_loop_skip_top :
    ∀ (a asts : List Nat) (score : Nat) (done : List Nat) (p : Nat)
      (b draws : List Nat), p % 16 = 15 →
    advance_projectiles_loop asts score done (a ++ p :: b) draws =
    advance_projectiles_loop asts score done (a ++ b) draws := by
  intro a
  induction a with
  | nil =>
    intro asts score done p b draws hp
    have hc : p % 16 + 1 = FIELD_HEIGHT := by rw [hp]; rfl
    simp [advance_projectiles_loop, hc]
  | cons q a ih =>
    intro asts score done p b draws hp
    rw [List.cons_append, List.cons_append, advance_projectiles_loop,
      advance_projectiles_loop]
    split
    · exact ih asts score done p b draws hp
    · split
      · split
        · rfl
        · next asts3 d3 heq => exact ih asts3 (score + 1) done p b d3 hp
      · exact ih asts score _ p b draws hp

theorem advance_projectiles_remove_top {s : GameState} {draws : List Nat}
    {a : List Nat} {p : Nat} {b : List Nat}
    (hproj : s.projectiles = a ++ p :: b) (htop : p % 16 = 15) :
    advance_projectiles s draws =
    advance_projectiles { s with projectiles := a ++ b } draws := by
  rw [advance_projectiles, advance_projectiles]
  simp only [hproj]
  rw [advance_projectiles_loop_skip_top a s.asteroids s.score [] p b draws htop]

theorem initialise_game_some {s : GameState} {draws : List Nat}
    {s2 : GameState} (h : initialise_game s draws = some s2) :
    s2.basePosition = 3 ∧ s2.projectiles = [] ∧ s2.lives = 4 ∧
    s2.score = s.score ∧ s2.asteroids.length = MAX_ASTEROIDS ∧
    s2.asteroids.Nodup ∧ ∀ p ∈ s2.asteroids, 3 ≤ p % 16 ∧ p < 256 := by
  rw [initialise_game] at h
  split at h
  · exact absurd h (by simp)
  · next asts rest heq =>
      obtain rfl := by simpa using h.symm
      obtain ⟨hl, hnd, hm⟩ :=
        init_asteroids_spec MAX_ASTEROIDS [] draws heq (by simp) (by simp)
      exact ⟨rfl, rfl, rfl, rfl, by simpa using hl, hnd, hm⟩

theorem new_game_some {s : GameState} {draws : List Nat} {s2 : GameState}
    (h : new_game s draws = some s2) :
    s2.basePosition = 3 ∧ s2.projectiles = [] ∧ s2.lives = 4 ∧
    s2.score = 0 ∧ s2.asteroids.length = MAX_ASTEROIDS ∧
    s2.asteroids.Nodup ∧ ∀ p ∈ s2.asteroids, 3 ≤ p % 16 ∧ p < 256 := by
  rw [new_game] at h
  split at h
  · exact absurd h (by simp)
  · next s3 heq =>
      obtain rfl := by simpa using h.symm
      obtain ⟨h1, h2, h3, _, h5, h6, h7⟩ := initialise_game_some heq
      exact ⟨by simpa using h1, by simpa using h2, by simpa using h3, rfl,
        by simpa using h5, by simpa using h6, by simpa using h7⟩

theorem advance_asteroids_basic {s : GameState} {draws : List Nat}
    {s2 : GameState} {d2 : List Nat}
    (h : advance_asteroids s draws = some (s2, d2)) :
    s2.asteroids.length = s.asteroids.length ∧
    s2.lives ≤ s.lives ∧
    List.Sublist s2.projectiles s.projectiles ∧
    s2.basePosition = s.basePosition ∧
    ((∀ p ∈ s.asteroids, p < 256) → ∀ p ∈ s2.asteroids, p < 256) :=
  advance_cells_basic cellList s draws h

theorem advance_projectiles_lives {s : GameState} {draws : List Nat}
    {s2 : GameState} {d2 : List Nat}
    (h : advance_projectiles s draws = some (s2, d2)) :
    s2.lives = s.lives := by
  obtain ⟨asts2, projs2, score2, _, rfl⟩ := advance_projectiles_some h
  rfl

/-- The representation invariant of the entity bags: distinct packed cells,
all real byte encodings. -/
def WF (s : GameState) : Prop :=
  s.asteroids.Nodup ∧ s.projectiles.Nodup ∧
  (∀ p ∈ s.asteroids, p < 256) ∧ (∀ p ∈ s.projectiles, p < 256)

theorem reachable_wf {s : GameState} (h : Reachable s) : WF s := by
  induction h with
  | init s0 draws s hng =>
    obtain ⟨_, hpr, _, _, _, hnd, hm⟩ := new_game_some hng
    exact ⟨hnd, by rw [hpr]; exact List.nodup_nil,
      fun p hp => (hm p hp).2, by rw [hpr]; simp⟩
  | move s d hr hg ih =>
    obtain ⟨ha, hp, hab, hpb⟩ := ih
    refine ⟨move_base_nodup d ha, ?_, move_base_bound d hab, ?_⟩
    · rw [move_base_projectiles]; exact hp
    · rw [move_base_projectiles]; exact hpb
  | fire s draws s2 d2 r hr hg heq ih =>
    obtain ⟨ha, hp, hab, hpb⟩ := ih
    obtain ⟨h1, h2, h3, h4⟩ := fire_projectile_wf heq ha hab hp hpb
    exact ⟨h1, h3, h2, h4⟩
  | advA s draws s2 d2 hr hg heq ih =>
    obtain ⟨ha, hp, hab, hpb⟩ := ih
    obtain ⟨hl, hv, hs, hb, hbd⟩ := advance_asteroids_basic heq
    exact ⟨advance_asteroids_nodup heq ha, hs.nodup hp, hbd hab,
      fun p hm => hpb p (hs.subset hm)⟩
  | advP s draws s2 d2 hr hg heq ih =>
    obtain ⟨ha, hp, hab, hpb⟩ := ih
    obtain ⟨h1, h2, h3, h4, h5, h6, h7⟩ :=
      advance_projectiles_wf heq ha hab hp hpb
    exact ⟨h1, h4, h2, h5⟩
  | regen s draws s2 d2 hr heq ih =>
    obtain ⟨ha, hp, hab, hpb⟩ := ih
    obtain ⟨hregen, hbp, hpr, hlv, hsc⟩ := regen_asteroid_some heq
    refine ⟨regen_list_nodup hregen ha, by rw [hpr]; exact hp,
      fun p hm => regen_list_bound hregen hab hm, by rw [hpr]; exact hpb⟩

theorem reachable_lives_le {s : GameState} (h : Reachable s) : s.lives ≤ 4 := by
  induction h with
  | init s0 draws s hng => rw [(new_game_some hng).2.2.1]
  | move s d hr hg ih => exact le_trans (move_base_lives d s) ih
  | fire s draws s2 d2 r hr hg heq ih => rw [fire_projectile_lives heq]; exact ih
  | advA s draws s2 d2 hr hg heq ih =>
    exact le_trans (advance_asteroids_basic heq).2.1 ih
  | advP s draws s2 d2 hr hg heq ih => rw [advance_projectiles_lives heq]; exact ih
  | regen s draws s2 d2 hr heq ih => rw [(regen_asteroid_some heq).2.2.2.1]; exact ih

theorem advance_projectiles_loop_length :
    ∀ (todo asts : List Nat) (score : Nat) (done draws : List Nat)
    {asts2 projs2 : List Nat} {score2 : Nat} {rest2 : List Nat},
    advance_projectiles_loop asts score done todo draws
      = some (asts2, projs2, score2, rest2) →
    asts2.length = asts.length := by
  intro todo
  induction todo with
  | nil =>
    intro asts score done draws asts2 projs2 score2 rest2 h
    obtain ⟨rfl, rfl, rfl, rfl⟩ := by
      simpa [advance_projectiles_loop] using h
    rfl
  | cons p rest ih =>
    intro asts score done draws asts2 projs2 score2 rest2 h
    rw [advance_projectiles_loop] at h
    split at h
    · exact ih asts score done draws h
    · split at h
      · next i hi =>
          split at h
          · exact absurd h (by simp)
          · next asts3 d3 heq =>
              rw [asteroid_at] at hi
              have h1 := remove_found_length hi
              have h2 := regen_list_length heq
              have h3 := ih asts3 (score + 1) done d3 h
              omega
      · exact ih asts score _ draws h

theorem advance_projectiles_length {s : GameState} {draws : List Nat}
    {s2 : GameState} {d2 : List Nat}
    (h : advance_projectiles s draws = some (s2, d2)) :
    s2.asteroids.length = s.asteroids.length := by
  obtain ⟨asts2, projs2, score2, hloop, rfl⟩ := advance_projectiles_some h
  exact advance_projectiles_loop_length s.projectiles s.asteroids s.score []
    draws hloop

theorem ram_check_length (s : GameState) (x y : Int) :
    (ram_check s x y).asteroids.length ≤ s.asteroids.length ∧
    s.asteroids.length ≤ (ram_check s x y).asteroids.length + 1 := by
  rcases ram_check_asteroids s x y with h | ⟨h, _⟩
  · rw [h]; omega
  · omega

theorem move_base_length (d : Direction) (s : GameState) :
    (move_base d s).1.asteroids.length ≤ s.asteroids.length ∧
    s.asteroids.length ≤ (move_base d s).1.asteroids.length + 2 := by
  cases d with
  | left =>
    rw [move_base]
    split
    · have h1 := ram_check_length s (s.basePosition - 2) 0
      have h2 := ram_check_length (ram_check s (s.basePosition - 2) 0)
        (s.basePosition - 1) 1
      simp only []
      constructor <;> omega
    · simp
  | right =>
    rw [move_base]
    split
    · have h1 := ram_check_length s (s.basePosition + 2) 0
      have h2 := ram_check_length (ram_check s (s.basePosition + 2) 0)
        (s.basePosition + 1) 1
      simp only []
      constructor <;> omega
    · simp

/-! ### The claims -/

/-- C1, counterexample: in the reachable state trace3 (wave of asteroids on
the base diagonals), a move_base to the left destroys the asteroid at
(basePosition-1, 1) without any regeneration, so the asteroid count drops
from 20 to 19: destruction by ram is not paired with a regeneration and the
count is not preserved by every engine operation. -/
theorem c1_move_base_destroys_without_regen :
    Reachable trace3 ∧
    ¬((move_base Direction.left trace3).1.asteroids.length
      = trace3.asteroids.length) := by
  constructor
  · have r0 : Reachable trace0 :=
      Reachable.init gsFallback traceDraws trace0 (by rfl)
    have r1 : Reachable trace1 :=
      Reachable.advA trace0 [] trace1 [] r0 (by rfl) (by rfl)
    have r2 : Reachable trace2 :=
      Reachable.advA trace1 [] trace2 [] r1 (by rfl) (by rfl)
    exact Reachable.advA trace2 [] trace3 [] r2 (by rfl) (by rfl)
  · decide

/-- C1, amended: every destruction inside fire_projectile,
advance_asteroids and advance_projectiles is paired with a regeneration, so
those three operations preserve the asteroid count; move_base, however,
destroys a rammed asteroid without regeneration, so it can lower the count
by up to 2 (one per occupied diagonal) and never raises it. -/
theorem c1_amended_count_preservation :
    (∀ (s : GameState) (draws : List Nat) (s2 : GameState) (d2 : List Nat),
      advance_asteroids s draws = some (s2, d2) →
      s2.asteroids.length = s.asteroids.length) ∧
    (∀ (s : GameState) (draws : List Nat) (s2 : GameState) (d2 : List Nat),
      advance_projectiles s draws = some (s2, d2) →
      s2.asteroids.length = s.asteroids.length) ∧
    (∀ (s : GameState) (draws : List Nat) (s2 : GameState) (d2 : List Nat)
      (r : Int), fire_projectile s draws = some (s2, d2, r) →
      s2.asteroids.length = s.asteroids.length) ∧
    (∀ (d : Direction) (s : GameState),
      (move_base d s).1.asteroids.length ≤ s.asteroids.length ∧
      s.asteroids.length ≤ (move_base d s).1.asteroids.length + 2) := by
  refine ⟨?_, ?_, ?_, ?_⟩
  · exact fun s draws s2 d2 h => (advance_asteroids_basic h).1
  · exact fun s draws s2 d2 h => advance_projectiles_length h
  · exact fun s draws s2 d2 r h => fire_projectile_length h
  · exact fun d s => move_base_length d s

/-- Witness for the amended C1 at concrete states: an asteroid at (2,10)
advanced one row, a projectile at (4,5) advanced one row, and a fire into an
asteroid sitting on the firing cell (3,2). -/
theorem c1_amended_count_preservation_witness :
    (⟨3, [], [41], 4, 0⟩ : GameState).asteroids.length
      = (⟨3, [], [42], 4, 0⟩ : GameState).asteroids.length ∧
    (⟨3, [70], [], 4, 0⟩ : GameState).asteroids.length
      = (⟨3, [69], [], 4, 0⟩ : GameState).asteroids.length ∧
    (⟨3, [], [15], 4, 1⟩ : GameState).asteroids.length
      = (⟨3, [], [50], 4, 0⟩ : GameState).asteroids.length :=
  ⟨c1_amended_count_preservation.1 ⟨3, [], [42], 4, 0⟩ [] ⟨3, [], [41], 4, 0⟩
      [] (by rfl),
    c1_amended_count_preservation.2.1 ⟨3, [69], [], 4, 0⟩ []
      ⟨3, [70], [], 4, 0⟩ [] (by rfl),
    c1_amended_count_preservation.2.2.1 ⟨3, [], [50], 4, 0⟩ [0]
      ⟨3, [], [15], 4, 1⟩ [] 1 (by rfl)⟩

/-- C2: in every reachable game state no two asteroids hold the same packed
cell and no two projectiles hold the same packed cell (the lists of packed
positions are duplicate-free), across every engine operation of the
Reachable relation (initialisation, move_base, fire_projectile,
advance_asteroids, advance_projectiles, regen_asteroid). -/
theorem c2_no_two_entities_share_cell {s : GameState} (h : Reachable s) :
    s.asteroids.Nodup ∧ s.projectiles.Nodup :=
  ⟨(reachable_wf h).1, (reachable_wf h).2.1⟩

/-- Witness for C2 at the concrete reachable state trace0. -/
theorem c2_no_two_entities_share_cell_witness :
    trace0.asteroids.Nodup ∧ trace0.projectiles.Nodup :=
  c2_no_two_entities_share_cell
    (Reachable.init gsFallback traceDraws trace0 (by rfl))

/-- C3: under any sequence of move_base calls the base centre stays within
[0,7], and a move request that would leave the range (left at 0, right at 7)
returns 0 with the whole state unchanged. -/
theorem c3_base_center_stays_in_range {s : GameState} (ds : List Direction)
    (d : Direction) (h : 0 ≤ s.basePosition ∧ s.basePosition ≤ 7) :
    (0 ≤ (move_seq ds s).basePosition ∧ (move_seq ds s).basePosition ≤ 7) ∧
    (((d = Direction.left ∧ s.basePosition = 0) ∨
      (d = Direction.right ∧ s.basePosition = 7)) → move_base d s = (s, 0)) := by
  constructor
  · induction ds generalizing s with
    | nil => simpa [move_seq] using h
    | cons d0 ds ih =>
      have hstep := move_base_range d0 h.1 h.2
      have : move_seq (d0 :: ds) s = move_seq ds (move_base d0 s).1 := by
        rw [move_seq, move_seq, List.foldl_cons]
      rw [this]
      exact ih hstep
  · rintro (⟨rfl, hbp⟩ | ⟨rfl, hbp⟩)
    · exact move_base_refused_left hbp
    · exact move_base_refused_right hbp

/-- Witness for C3: base at the left wall, two requested moves; the refused
left move returns 0 and changes nothing. -/
theorem c3_base_center_stays_in_range_witness :
    (0 ≤ (move_seq [Direction.right, Direction.left]
        (⟨0, [], [], 4, 0⟩ : GameState)).basePosition ∧
      (move_seq [Direction.right, Direction.left]
        (⟨0, [], [], 4, 0⟩ : GameState)).basePosition ≤ 7) ∧
    (((Direction.left = Direction.left ∧
        (⟨0, [], [], 4, 0⟩ : GameState).basePosition = 0) ∨
      (Direction.left = Direction.right ∧
        (⟨0, [], [], 4, 0⟩ : GameState).basePosition = 7)) →
      move_base Direction.left ⟨0, [], [], 4, 0⟩ = (⟨0, [], [], 4, 0⟩, 0)) :=
  c3_base_center_stays_in_range [Direction.right, Direction.left]
    Direction.left (by constructor <;> decide)

/-- C4: with spare capacity, no projectile on the firing cell and an
asteroid on the firing cell (basePosition, 2), fire_projectile destroys that
asteroid (the firing cell is empty of asteroids afterwards), credits 1 to
the score, appends exactly one replacement asteroid at row 15, leaves the
projectiles untouched, and returns 1. -/
theorem c4_fire_into_occupied_cell {s : GameState} {draws : List Nat}
    {s2 : GameState} {d2 : List Nat} {r : Int} {i : Nat}
    (hc : s.projectiles.length < MAX_PROJECTILES)
    (hfree : projectile_at s.projectiles s.basePosition 2 = none)
    (hast : asteroid_at s.asteroids s.basePosition 2 = some i)
    (hnd : s.asteroids.Nodup)
    (h : fire_projectile s draws = some (s2, d2, r)) :
    r = 1 ∧ s2.score = s.score + 1 ∧ s2.projectiles = s.projectiles ∧
    s2.asteroids.length = s.asteroids.length ∧
    asteroid_at s2.asteroids s2.basePosition 2 = none ∧
    ∃ x : Nat, x < 8 ∧
      s2.asteroids = remove_asteroid s.asteroids (some i)
        ++ [GAME_POSITION (x : Int) 15] := by
  rw [fire_projectile, if_pos ⟨hc, hfree⟩] at h
  split at h
  · next i2 hi2 =>
      have hii : i = i2 := by
        have := hast.symm.trans hi2
        simpa using this
      subst hii
      split at h
      · exact absurd h (by simp)
      · next s3 rest heq =>
          have h2 : { s3 with score := s3.score + 1 } = s2 ∧ rest = d2 ∧
              (1 : Int) = r := by
            simpa using h
          obtain ⟨hs2, rfl, hr⟩ := h2
          obtain ⟨hregen, hbp3, hpr3, hlv3, hsc3⟩ := regen_asteroid_some heq
          simp only [] at hregen hbp3 hpr3 hlv3 hsc3
          obtain ⟨x, hx, hnm15, hasts⟩ := regen_list_some hregen
          rw [asteroid_at] at hast
          have hbp2 : s2.basePosition = s.basePosition := by
            rw [← hs2]; simpa using hbp3
          have hasts2 : s2.asteroids = remove_asteroid s.asteroids (some i)
              ++ [GAME_POSITION (x : Int) 15] := by
            rw [← hs2]; simpa using hasts
          refine ⟨hr.symm, ?_, ?_, ?_, ?_, x, hx, hasts2⟩
          · rw [← hs2]; simp [hsc3]
          · rw [← hs2]; simpa using hpr3
          · rw [hasts2]
            have := remove_found_length hast
            simp; omega
          · rw [hbp2, asteroid_at, find_at_eq_none, hasts2]
            intro hmem
            rcases List.mem_append.1 hmem with h1 | h1
            · exact remove_found_not_mem hast hnd h1
            · have he : GAME_POSITION s.basePosition 2
                  = GAME_POSITION (x : Int) 15 := by simpa using h1
              have h15 := GAME_POSITION_int15_mod16 (x : Int)
              have hm2 := GAME_POSITION_int2_mod16 s.basePosition
              rw [he, h15] at hm2
              omega
  · next hi2 => exact absurd (hi2.symm.trans hast) (by simp)

/-- Witness for C4: base at 3, a single asteroid on the firing cell (packed
50), draw 0 regenerating at (0,15) (packed 15). -/
theorem c4_fire_into_occupied_cell_witness :
    (1 : Int) = 1 ∧
    (⟨3, [], [15], 4, 1⟩ : GameState).score
      = (⟨3, [], [50], 4, 0⟩ : GameState).score + 1 ∧
    (⟨3, [], [15], 4, 1⟩ : GameState).projectiles
      = (⟨3, [], [50], 4, 0⟩ : GameState).projectiles ∧
    (⟨3, [], [15], 4, 1⟩ : GameState).asteroids.length
      = (⟨3, [], [50], 4, 0⟩ : GameState).asteroids.length ∧
    asteroid_at (⟨3, [], [15], 4, 1⟩ : GameState).asteroids
      (⟨3, [], [15], 4, 1⟩ : GameState).basePosition 2 = none ∧
    (∃ x : Nat, x < 8 ∧
      (⟨3, [], [15], 4, 1⟩ : GameState).asteroids
        = remove_asteroid (⟨3, [], [50], 4, 0⟩ : GameState).asteroids (some 0)
          ++ [GAME_POSITION (x : Int) 15]) :=
  @c4_fire_into_occupied_cell ⟨3, [], [50], 4, 0⟩ [0] ⟨3, [], [15], 4, 1⟩ []
    1 0 (by decide) (by rfl) (by rfl) (by decide) (by rfl)

/-- C5: the fresh initialisation sequence of new_game (initialise_game
followed by the score reset of init_score) yields lives 4, score 0, base
centre 3, no projectiles, exactly MAX_ASTEROIDS asteroids, each at packed y
(the low nibble) at least 3. -/
theorem c5_fresh_initialise {s0 : GameState} {draws : List Nat}
    {s : GameState} (h : new_game s0 draws = some s) :
    s.lives = 4 ∧ s.score = 0 ∧ s.basePosition = 3 ∧ s.projectiles = [] ∧
    s.asteroids.length = MAX_ASTEROIDS ∧ ∀ p ∈ s.asteroids, 3 ≤ p % 16 := by
  obtain ⟨h1, h2, h3, h4, h5, h6, h7⟩ := new_game_some h
  exact ⟨h3, h4, h1, h2, h5, fun p hp => (h7 p hp).1⟩

/-- Witness for C5 at the concrete run trace0. -/
theorem c5_fresh_initialise_witness :
    trace0.lives = 4 ∧ trace0.score = 0 ∧ trace0.basePosition = 3 ∧
    trace0.projectiles = [] ∧ trace0.asteroids.length = MAX_ASTEROIDS ∧
    ∀ p ∈ trace0.asteroids, 3 ≤ p % 16 :=
  @c5_fresh_initialise gsFallback traceDraws trace0 (by rfl)

/-- C6: a projectile sitting on the top row (packed y nibble 15) is removed
by advance_projectiles with no other effect: the run equals the run on the
state without that projectile (same asteroids, same score, same surviving
projectiles — the count is down exactly by its one slot). -/
theorem c6_top_row_projectile_removed {s : GameState} {draws : List Nat}
    {a : List Nat} {p : Nat} {b : List Nat}
    (hproj : s.projectiles = a ++ p :: b) (htop : p % 16 = 15) :
    advance_projectiles s draws =
      advance_projectiles { s with projectiles := a ++ b } draws ∧
    s.projectiles.length = (a ++ b).length + 1 := by
  refine ⟨advance_projectiles_remove_top hproj htop, ?_⟩
  rw [hproj]; simp; omega

/-- Witness for C6: a single projectile at (5,15) (packed 95). -/
theorem c6_top_row_projectile_removed_witness :
    advance_projectiles ⟨3, [95], [], 4, 0⟩ [] =
      advance_projectiles
        { (⟨3, [95], [], 4, 0⟩ : GameState) with
          projectiles := ([] : List Nat) ++ [] } [] ∧
    (⟨3, [95], [], 4, 0⟩ : GameState).projectiles.length
      = (([] : List Nat) ++ []).length + 1 :=
  @c6_top_row_projectile_removed ⟨3, [95], [], 4, 0⟩ [] [] 95 [] (by rfl)
    (by rfl)

/-- C7, counterexample: trace5 is reachable (each operation invoked only
while the game is not over) yet has lives = -2: two successive
advance_asteroids passes each land three base hits, dropping lives from 4
to 1 and then from 1 to -2, so lives is not bounded below by 0 in reachable
states. -/
theorem c7_lives_can_go_negative : Reachable trace5 ∧ trace5.lives < 0 := by
  constructor
  · have r0 : Reachable trace0 :=
      Reachable.init gsFallback traceDraws trace0 (by rfl)
    have r1 : Reachable trace1 :=
      Reachable.advA trace0 [] trace1 [] r0 (by rfl) (by rfl)
    have r2 : Reachable trace2 :=
      Reachable.advA trace1 [] trace2 [] r1 (by rfl) (by rfl)
    have r3 : Reachable trace3 :=
      Reachable.advA trace2 [] trace3 [] r2 (by rfl) (by rfl)
    have r4 : Reachable trace4 :=
      Reachable.advA trace3 [0, 1, 2] trace4 [] r3 (by rfl) (by rfl)
    exact Reachable.advA trace4 [3, 4, 5] trace5 [] r4 (by rfl) (by rfl)
  · decide

/-- C7, amended: in every reachable state lives is at most 4 and
is_game_over returns 1 exactly when lives < 1; the lower bound 0 does not
hold (see the counterexample), because one operation can take more than one
life. -/
theorem c7_amended_lives_upper_bound {s : GameState} (h : Reachable s) :
    s.lives ≤ 4 ∧ (is_game_over s = 1 ↔ s.lives < 1) := by
  refine ⟨reachable_lives_le h, ?_⟩
  rw [is_game_over]
  by_cases hl : s.lives < 1
  · simp [hl]
  · simp [hl]

/-- Witness for the amended C7 at the concrete reachable state trace0. -/
theorem c7_amended_lives_upper_bound_witness :
    trace0.lives ≤ 4 ∧ (is_game_over trace0 = 1 ↔ trace0.lives < 1) :=
  c7_amended_lives_upper_bound
    (Reachable.init gsFallback traceDraws trace0 (by rfl))

/-- C8, counterexample: the asteroid-advance interval 500 - 1.8*score of the
game loop has no floor; at score 300 it is negative. -/
theorem c8_interval_goes_negative : asteroid_interval 300 < 0 := by
  norm_num [asteroid_interval]

/-- C8, amended: the game loop applies no floor at all to the interval
500 - 1.8*score: the interval is positive exactly for scores below 2500/9
(about 277.8) and non-positive for every larger score. -/
theorem c8_amended_no_floor (score : ℚ) :
    0 < asteroid_interval score ↔ score < 2500 / 9 := by
  rw [asteroid_interval]
  constructor <;> intro h <;> linarith

/-- C9, counterexample: retriggering the active alarm (step 3, last step
fired at time 0) resets the step counter but not the timer: basehit_time
still holds 0, and at a retrigger occurring at time 1000 with an inter-step
delay of 110 the first tone fires immediately (the step counter advances to
2 at once) instead of being scheduled 110 units after the retrigger. -/
theorem c9_retrigger_does_not_reset_timer :
    (enable_basehit_sound ⟨1, 3, 0⟩).basehit_time = 0 ∧
    (handle_basehit_sound (fun _ => 110) 1000
      (enable_basehit_sound ⟨1, 3, 0⟩)).basehit_sequence = 2 := by
  constructor
  · rfl
  · decide

/-- C9, amended: enable_basehit_sound restarts the sequence from step 1 and
re-arms the alarm but leaves basehit_time unchanged, so the restarted first
tone fires as soon as now - delay(1) reaches the previous step time, not
the retrigger time. -/
theorem c9_amended_retrigger_behaviour (a : AlarmState) (delay : Int → Int)
    (now : Nat) :
    (enable_basehit_sound a).base_hit_sound = 1 ∧
    (enable_basehit_sound a).basehit_sequence = 1 ∧
    (enable_basehit_sound a).basehit_time = a.basehit_time ∧
    ((handle_basehit_sound delay now (enable_basehit_sound a)).basehit_sequence
      = 2 ↔ (a.basehit_time : Int) ≤ (now : Int) - delay 1) := by
  refine ⟨rfl, rfl, rfl, ?_⟩
  by_cases hc : (now : Int) - delay 1 ≥ (a.basehit_time : Int)
  · simp [handle_basehit_sound, enable_basehit_sound, hc]
  · simp [handle_basehit_sound, enable_basehit_sound, hc]

/-- C10: the retry loops only exit at a free cell, and cannot exit at all
when the target row is full: with every cell of row 15 occupied,
regen_asteroid (and the identical inlined respawn loop of
advance_asteroids, both running find_free_x15) returns none for every
finite draw sequence, i.e. the do/while never terminates; conversely any
exit of find_free_x15 or of the initialise_game placement loop
(find_free_init) names a cell that held no asteroid. -/
theorem c10_retry_loop_termination :
    (∀ (s : GameState) (draws : List Nat),
      (∀ x : Nat, x < 8 → GAME_POSITION (x : Int) 15 ∈ s.asteroids) →
      regen_asteroid s draws = none) ∧
    (∀ asts : List Nat,
      (∀ x : Nat, x < 8 → GAME_POSITION (x : Int) 15 ∈ asts) →
      ∀ draws : List Nat, find_free_x15 asts draws = none) ∧
    (∀ (asts draws : List Nat) (x : Nat) (rest : List Nat),
      find_free_x15 asts draws = some (x, rest) →
      x < 8 ∧ asteroid_at asts (x : Int) 15 = none) ∧
    (∀ (asts draws : List Nat) (x y : Nat) (rest : List Nat),
      find_free_init asts draws = some (x, y, rest) →
      asteroid_at asts (x : Int) (y : Int) = none) := by
  refine ⟨?_, ?_, ?_, ?_⟩
  · intro s draws hfull
    rw [regen_asteroid, regen_list, find_free_x15_none_of_full hfull draws]
  · exact fun asts hfull draws => find_free_x15_none_of_full hfull draws
  · intro asts draws x rest h
    obtain ⟨hx, hnm⟩ := find_free_x15_some h
    exact ⟨hx, by rw [asteroid_at]; exact find_at_eq_none.2 hnm⟩
  · intro asts draws x y rest h
    obtain ⟨_, _, _, hnm⟩ := find_free_init_some draws x y rest h
    rw [asteroid_at]
    exact find_at_eq_none.2 hnm

/-- Witness for C10: a full row 15 (packed 15,31,...,127) blocks
regen_asteroid for the concrete draws [0,1,2]; concrete searches on an
empty field exit at free cells. -/
theorem c10_retry_loop_termination_witness :
    regen_asteroid ⟨3, [], [15, 31, 47, 63, 79, 95, 111, 127], 4, 0⟩ [0, 1, 2]
      = none ∧
    (3 < 8 ∧ asteroid_at [] 3 15 = none) ∧
    asteroid_at [] 1 5 = none :=
  ⟨c10_retry_loop_termination.1 ⟨3, [], [15, 31, 47, 63, 79, 95, 111, 127], 4, 0⟩
      [0, 1, 2] (by decide),
    c10_retry_loop_termination.2.2.1 [] [3] 3 [] (by rfl),
    c10_retry_loop_termination.2.2.2 [] [1, 2] 1 5 [] (by rfl)⟩

end SpaceGame
